import Mathlib

/-!
Verification development for the Io plasma torus particle simulation
(`src/app/page.tsx`).  The numeric core is shallowly embedded:

* JavaScript numbers are modelled by the type `F`: an exact real value
  (`F.fin`), the two infinities, or `NaN`.  Arithmetic on finite values is
  exact real arithmetic (rounding and overflow are idealised away); the
  propagation rules for infinities and NaN follow IEEE 754 / JavaScript
  semantics (`0 * inf = NaN`, `inf - inf = NaN`, comparisons with NaN are
  false, `Math.sqrt` of a negative number is NaN, ...).
* The three `Float32Array` buffers are modelled per-slot as functions
  `Nat -> P3`; out-of-range writes on typed arrays are silently discarded and
  out-of-range reads yield `undefined` (which `isNaN` treats as NaN), which
  `writeSlot` / `readSlot` reproduce.
* `Math.random()` is modelled by an injected stream `r : Nat -> Real` of
  draws; the call sites consume the stream in source order, threading the
  next-draw index through the tick exactly as the JS engine consumes the
  ambient generator.
* The caller-owned inputs of a tick (`io.moon.position`, i.e. the emission
  source position, and `jupiter.rotation.y`, the rotation angle) are finite
  numbers and are passed in as exact reals.
-/

/-! ## Configuration constants (src/app/page.tsx lines 7-24) -/

def MAX_PARTICLES : ℕ := 1000

noncomputable def MAGNETIC_TILT : ℝ := Real.pi / 10

noncomputable def JUPITER_ROTATION_SPEED : ℝ := 0.002

noncomputable def MAGNETIC_FIELD_STRENGTH : ℝ := 0.2

noncomputable def TORUS_RADIUS : ℝ := 10

noncomputable def MAX_DISTANCE : ℝ := 30

noncomputable def MIN_DISTANCE : ℝ := 3

def ERUPTION_DURATION : ℤ := 100

def ERUPTION_COOLDOWN : ℤ := 200

noncomputable def ERUPTION_CHANCE : ℝ := 0.005

def PARTICLES_PER_FRAME_DURING_ERUPTION : ℕ := 5

noncomputable def BASE_EMISSION_RATE : ℝ := 0.1

/-! ## The scalar model `F` -/

inductive F where
  | fin : ℝ → F
  | pinf : F
  | ninf : F
  | nan : F

open Classical

/-- JavaScript `isNaN` on a number (also covers `isNaN(undefined)` via
`readSlot` returning NaN for out-of-range reads). -/
def F.isNaNb : F → Bool
  | F.nan => true
  | _ => false

def F.neg : F → F
  | F.fin a => F.fin (-a)
  | F.pinf => F.ninf
  | F.ninf => F.pinf
  | F.nan => F.nan

/-- IEEE addition (exact on finite values). -/
def F.add : F → F → F
  | F.nan, _ => F.nan
  | _, F.nan => F.nan
  | F.fin a, F.fin b => F.fin (a + b)
  | F.fin _, F.pinf => F.pinf
  | F.fin _, F.ninf => F.ninf
  | F.pinf, F.fin _ => F.pinf
  | F.ninf, F.fin _ => F.ninf
  | F.pinf, F.pinf => F.pinf
  | F.ninf, F.ninf => F.ninf
  | F.pinf, F.ninf => F.nan
  | F.ninf, F.pinf => F.nan

/-- IEEE subtraction `a - b = a + (-b)` (exact in the absence of rounding). -/
def F.sub (a b : F) : F := F.add a (F.neg b)

/-- IEEE multiplication; `0 * (±inf) = NaN`. -/
noncomputable def F.mul : F → F → F
  | F.nan, _ => F.nan
  | _, F.nan => F.nan
  | F.fin a, F.fin b => F.fin (a * b)
  | F.fin a, F.pinf => if a = 0 then F.nan else if 0 < a then F.pinf else F.ninf
  | F.fin a, F.ninf => if a = 0 then F.nan else if 0 < a then F.ninf else F.pinf
  | F.pinf, F.fin b => if b = 0 then F.nan else if 0 < b then F.pinf else F.ninf
  | F.ninf, F.fin b => if b = 0 then F.nan else if 0 < b then F.ninf else F.pinf
  | F.pinf, F.pinf => F.pinf
  | F.pinf, F.ninf => F.ninf
  | F.ninf, F.pinf => F.ninf
  | F.ninf, F.ninf => F.pinf

/-- IEEE division (the model has no signed zero; zero is `+0`). -/
noncomputable def F.div : F → F → F
  | F.nan, _ => F.nan
  | _, F.nan => F.nan
  | F.fin a, F.fin b =>
      if b = 0 then (if a = 0 then F.nan else if 0 < a then F.pinf else F.ninf)
      else F.fin (a / b)
  | F.fin _, F.pinf => F.fin 0
  | F.fin _, F.ninf => F.fin 0
  | F.pinf, F.fin b => if 0 ≤ b then F.pinf else F.ninf
  | F.ninf, F.fin b => if 0 ≤ b then F.ninf else F.pinf
  | F.pinf, F.pinf => F.nan
  | F.pinf, F.ninf => F.nan
  | F.ninf, F.pinf => F.nan
  | F.ninf, F.ninf => F.nan

/-- `Math.sqrt`: NaN on negative arguments and on `-inf`. -/
noncomputable def F.sqrt : F → F
  | F.fin a => if a < 0 then F.nan else F.fin (Real.sqrt a)
  | F.pinf => F.pinf
  | F.ninf => F.nan
  | F.nan => F.nan

/-- `Math.exp`. -/
noncomputable def F.exp : F → F
  | F.fin a => F.fin (Real.exp a)
  | F.pinf => F.pinf
  | F.ninf => F.fin 0
  | F.nan => F.nan

/-- `Math.min` (binary): NaN if either argument is NaN. -/
noncomputable def F.fmin : F → F → F
  | F.nan, _ => F.nan
  | _, F.nan => F.nan
  | F.fin a, F.fin b => F.fin (min a b)
  | F.fin a, F.pinf => F.fin a
  | F.pinf, F.fin b => F.fin b
  | F.fin _, F.ninf => F.ninf
  | F.ninf, F.fin _ => F.ninf
  | F.pinf, F.pinf => F.pinf
  | F.ninf, F.ninf => F.ninf
  | F.pinf, F.ninf => F.ninf
  | F.ninf, F.pinf => F.ninf

/-- `Math.max` (binary): NaN if either argument is NaN. -/
noncomputable def F.fmax : F → F → F
  | F.nan, _ => F.nan
  | _, F.nan => F.nan
  | F.fin a, F.fin b => F.fin (max a b)
  | F.fin _, F.pinf => F.pinf
  | F.pinf, F.fin _ => F.pinf
  | F.fin a, F.ninf => F.fin a
  | F.ninf, F.fin b => F.fin b
  | F.pinf, F.pinf => F.pinf
  | F.ninf, F.ninf => F.ninf
  | F.pinf, F.ninf => F.pinf
  | F.ninf, F.pinf => F.pinf

/-- The JavaScript `<` comparison: false whenever NaN is involved. -/
def F.lt : F → F → Prop
  | F.nan, _ => False
  | _, F.nan => False
  | F.fin a, F.fin b => a < b
  | F.fin _, F.pinf => True
  | F.fin _, F.ninf => False
  | F.pinf, _ => False
  | F.ninf, F.ninf => False
  | F.ninf, _ => True

/-! ## Real 3-vectors (used for the caller-supplied finite inputs and for the
purely mathematical statement of the dipole field) -/

@[ext]
structure V3 where
  x : ℝ
  y : ℝ
  z : ℝ

def addV (a b : V3) : V3 := ⟨a.x + b.x, a.y + b.y, a.z + b.z⟩

def subV (a b : V3) : V3 := ⟨a.x - b.x, a.y - b.y, a.z - b.z⟩

def negV (a : V3) : V3 := ⟨-a.x, -a.y, -a.z⟩

def smulV (s : ℝ) (a : V3) : V3 := ⟨s * a.x, s * a.y, s * a.z⟩

def dotV (a b : V3) : ℝ := a.x * b.x + a.y * b.y + a.z * b.z

noncomputable def lenV (a : V3) : ℝ := Real.sqrt (dotV a a)

def zeroV : V3 := ⟨0, 0, 0⟩

/-- `THREE.Vector3.applyAxisAngle((1,0,0), a)` in exact arithmetic: rotation
by angle `a` about the x-axis (right-hand rule). -/
noncomputable def rotX (a : ℝ) (v : V3) : V3 :=
  ⟨v.x, Real.cos a * v.y - Real.sin a * v.z, Real.sin a * v.y + Real.cos a * v.z⟩

/-- `THREE.Vector3.applyAxisAngle((0,1,0), a)` in exact arithmetic: rotation
by angle `a` about the y-axis (right-hand rule). -/
noncomputable def rotY (a : ℝ) (v : V3) : V3 :=
  ⟨Real.cos a * v.x + Real.sin a * v.z, v.y, Real.cos a * v.z - Real.sin a * v.x⟩

/-- The unit magnetic moment `m = (0, 1, 0)` (src line 179). -/
def mV : V3 := ⟨0, 1, 0⟩

/-- The dipole evaluation `B = (3(m·r)r - m·r²)/r⁵` of src lines 173-185,
on exact reals: `r := |q|`, `r2 := r*r`, `r5 := r2*r2*r`, and
`divideScalar(r5)` is `multiplyScalar(1/r5)` in THREE. -/
noncomputable def dipoleCore (q : V3) : V3 :=
  let r := lenV q
  let r2 := r * r
  let r5 := r2 * r2 * r
  let mdr := dotV mV q
  smulV (1 / r5) (subV (smulV (3 * mdr) q) (smulV r2 mV))

/-- `getMagneticFieldVector` (src lines 164-192) on exact reals: rotate by
`MAGNETIC_TILT` about x, then by `+rotation` about y (that is the literal
`applyAxisAngle` call of line 171), evaluate the dipole, rotate back by
`-rotation` about y and `-MAGNETIC_TILT` about x, scale by the field
strength. -/
noncomputable def getMagneticFieldVector (p : V3) (rotation : ℝ) : V3 :=
  smulV MAGNETIC_FIELD_STRENGTH
    (rotX (-MAGNETIC_TILT) (rotY (-rotation) (dipoleCore (rotY rotation (rotX MAGNETIC_TILT p)))))

/-- The field-evaluation procedure exactly as the spec words it (spec §4.1 /
claim C4): transform by the tilt about x then by `-rotationAngle` about y,
evaluate the dipole formula, transform back first by `+rotationAngle` about y
then by `-tilt` about x, scale by the field strength.  Named separately so
that C4 can compare it with the source's `getMagneticFieldVector`. -/
noncomputable def fieldAtSpecProcedure (p : V3) (rotation : ℝ) : V3 :=
  smulV MAGNETIC_FIELD_STRENGTH
    (rotX (-MAGNETIC_TILT) (rotY rotation (dipoleCore (rotY (-rotation) (rotX MAGNETIC_TILT p)))))

/-! ## F-valued 3-vectors and THREE.Vector3 operations -/

@[ext]
structure P3 where
  x : F
  y : F
  z : F

def finV (v : V3) : P3 := ⟨F.fin v.x, F.fin v.y, F.fin v.z⟩

def zeroP : P3 := finV zeroV

def addP (a b : P3) : P3 := ⟨F.add a.x b.x, F.add a.y b.y, F.add a.z b.z⟩

def subP (a b : P3) : P3 := ⟨F.sub a.x b.x, F.sub a.y b.y, F.sub a.z b.z⟩

noncomputable def mulScalarP (v : P3) (s : F) : P3 :=
  ⟨F.mul v.x s, F.mul v.y s, F.mul v.z s⟩

noncomputable def dotP (a b : P3) : F :=
  F.add (F.add (F.mul a.x b.x) (F.mul a.y b.y)) (F.mul a.z b.z)

/-- `THREE.Vector3.length()`: `Math.sqrt(x*x + y*y + z*z)`. -/
noncomputable def lengthP (v : P3) : F := F.sqrt (dotP v v)

/-- `THREE.Vector3.cross`. -/
noncomputable def crossP (a b : P3) : P3 :=
  ⟨F.sub (F.mul a.y b.z) (F.mul a.z b.y),
   F.sub (F.mul a.z b.x) (F.mul a.x b.z),
   F.sub (F.mul a.x b.y) (F.mul a.y b.x)⟩

/-- `THREE.Vector3.normalize()` is `divideScalar(length() || 1)`, and
`divideScalar(s)` is `multiplyScalar(1/s)`; `||` treats both `0` and NaN as
falsy. -/
noncomputable def normalizeP (v : P3) : P3 :=
  let l := lengthP v
  let d := if l = F.fin 0 ∨ l = F.nan then F.fin 1 else l
  mulScalarP v (F.div (F.fin 1) d)

/-- F-valued rotation about the x-axis (the angle itself is a finite real). -/
noncomputable def rotXF (a : ℝ) (v : P3) : P3 :=
  ⟨v.x,
   F.sub (F.mul (F.fin (Real.cos a)) v.y) (F.mul (F.fin (Real.sin a)) v.z),
   F.add (F.mul (F.fin (Real.sin a)) v.y) (F.mul (F.fin (Real.cos a)) v.z)⟩

/-- F-valued rotation about the y-axis. -/
noncomputable def rotYF (a : ℝ) (v : P3) : P3 :=
  ⟨F.add (F.mul (F.fin (Real.cos a)) v.x) (F.mul (F.fin (Real.sin a)) v.z),
   v.y,
   F.sub (F.mul (F.fin (Real.cos a)) v.z) (F.mul (F.fin (Real.sin a)) v.x)⟩

def mP : P3 := finV mV

/-- `getMagneticFieldVector` (src lines 164-192) on the scalar model `F`,
exactly as the integrator invokes it on particle state. -/
noncomputable def getMagneticFieldVectorF (p : P3) (rotation : ℝ) : P3 :=
  let q := rotYF rotation (rotXF MAGNETIC_TILT p)
  let r := lengthP q
  let r2 := F.mul r r
  let r5 := F.mul (F.mul r2 r2) r
  let mdr := dotP mP q
  let f1 := mulScalarP q (F.mul (F.fin 3) mdr)
  let f2 := subP f1 (mulScalarP mP r2)
  let f3 := mulScalarP f2 (F.div (F.fin 1) r5)
  mulScalarP (rotXF (-MAGNETIC_TILT) (rotYF (-rotation) f3)) (F.fin MAGNETIC_FIELD_STRENGTH)

/-! ## Pool, eruption state, and buffers -/

structure Erupt where
  isActive : Bool
  countdown : ℤ
  cooldown : ℤ

structure Bufs where
  pos : ℕ → P3
  vel : ℕ → P3
  col : ℕ → P3

structure Sim where
  bufs : Bufs
  active : ℕ
  er : Erupt

/-- Writing slot `i` of a typed-array buffer; out-of-range writes are
silently discarded, as on a JS typed array. -/
def writeSlot (f : ℕ → P3) (i : ℕ) (v : P3) : ℕ → P3 :=
  if i < MAX_PARTICLES then Function.update f i v else f

/-- Reading slot `i`; out-of-range reads give `undefined`, which every
numeric use in the integrator immediately coerces to NaN. -/
def readSlot (f : ℕ → P3) (i : ℕ) : P3 :=
  if i < MAX_PARTICLES then f i else ⟨F.nan, F.nan, F.nan⟩

/-- `position = source + (random - 0.5) * spread` per axis (src lines
349-354, 397-401, 453-457). `d0 d1 d2` are the three draws. -/
def jitterPos (src : V3) (spread d0 d1 d2 : ℝ) : V3 :=
  ⟨src.x + (d0 - 0.5) * spread,
   src.y + (d1 - 0.5) * spread,
   src.z + (d2 - 0.5) * spread⟩

/-- Real-valued `normalize` for the freshly spawned (always finite) emission
vectors: `divideScalar(length() || 1)`. -/
noncomputable def normV (v : V3) : V3 :=
  if lenV v = 0 then v else smulV (1 / lenV v) v

def eruptColor : V3 := ⟨1, 0.7, 0.3⟩

def bgColor : V3 := ⟨1, 0.5, 0.2⟩

/-- One particle spawn (src lines 345-372 for the erupting regime, 394-417
for background): write `position = src + jitter`, `velocity` = normalised
position direction times `sBase + d3 * sVar`, and the regime's colour into
slot `idx`.  The velocity is computed from the just-written position values
(the source reads them back from the buffer; for an in-range `idx` that read
returns exactly what was written, and for an out-of-range `idx` all three
writes are discarded anyway). -/
noncomputable def spawnAt (src : V3) (d0 d1 d2 d3 : ℝ) (spread sBase sVar : ℝ)
    (col : V3) (idx : ℕ) (b : Bufs) : Bufs :=
  let p := jitterPos src spread d0 d1 d2
  let vel := smulV (sBase + d3 * sVar) (normV p)
  { pos := writeSlot b.pos idx (finV p),
    vel := writeSlot b.vel idx (finV vel),
    col := writeSlot b.col idx (finV col) }

/-- The erupting-regime emission loop (src lines 334-374): up to
`PARTICLES_PER_FRAME_DURING_ERUPTION` attempts, each succeeding when its
draw is `< 0.8`.  The slot choice compares and uses `stale` — the
`activeParticles` value destructured at the start of the tick (src line 319)
— while the live counter `cnt` (`particleSystemRef.current.activeParticles`)
is incremented.  State is `(buffers, live counter, next draw index)`. -/
noncomputable def eruptLoop (r : ℕ → ℝ) (src : V3) (stale : ℕ) :
    ℕ → Bufs × ℕ × ℕ → Bufs × ℕ × ℕ
  | 0, st => st
  | Nat.succ n, (b, cnt, k) =>
      if r k < 0.8 then
        if stale < MAX_PARTICLES then
          eruptLoop r src stale n
            (spawnAt src (r (k+1)) (r (k+2)) (r (k+3)) (r (k+4)) 1.2 0.04 0.02
              eruptColor stale b, cnt + 1, k + 5)
        else
          eruptLoop r src stale n
            (spawnAt src (r (k+2)) (r (k+3)) (r (k+4)) (r (k+5)) 1.2 0.04 0.02
              eruptColor (Int.toNat (Int.floor (r (k+1) * 1000))) b, cnt, k + 6)
      else eruptLoop r src stale n (b, cnt, k + 1)

/-- The controller advance plus emission phase of one tick (src lines
324-420).  Returns the new eruption state, the buffers after emission, the
new `activeParticles`, and the number of RNG draws consumed. -/
noncomputable def emitPhase (r : ℕ → ℝ) (src : V3) (s : Sim) :
    Erupt × Bufs × ℕ × ℕ :=
  if s.er.isActive then
    let cd := s.er.countdown - 1
    let er' : Erupt := if cd ≤ 0 then ⟨false, cd, ERUPTION_COOLDOWN⟩
                       else ⟨true, cd, s.er.cooldown⟩
    let out := eruptLoop r src s.active PARTICLES_PER_FRAME_DURING_ERUPTION
      (s.bufs, s.active, 0)
    (er', out.1, out.2.1, out.2.2)
  else if 0 < s.er.cooldown then
    (⟨false, s.er.countdown, s.er.cooldown - 1⟩, s.bufs, s.active, 0)
  else if r 0 < ERUPTION_CHANCE then
    (⟨true, ERUPTION_DURATION, s.er.cooldown⟩, s.bufs, s.active, 1)
  else if r 1 < BASE_EMISSION_RATE then
    if s.active < MAX_PARTICLES then
      (s.er, spawnAt src (r 2) (r 3) (r 4) (r 5) 0.8 0.02 0.01 bgColor s.active s.bufs,
       s.active + 1, 6)
    else
      (s.er, spawnAt src (r 3) (r 4) (r 5) (r 6) 0.8 0.02 0.01 bgColor
        (Int.toNat (Int.floor (r 2 * 1000))) s.bufs, s.active, 7)
  else (s.er, s.bufs, s.active, 2)

/-- Integrator output for one slot: the slot's new position, velocity and
colour, and the number of RNG draws consumed. -/
structure StepOut where
  pos : P3
  vel : P3
  col : P3
  used : ℕ

/-- The colour update of src lines 531-541: `ionization` is
`min(1, |newPosition - source| / 5)` and the channels are
`(max(0.2, 1 - ion), 0.3 + ion*0.2, 0.2 + ion*0.8)`. -/
noncomputable def ionColor (np : P3) (src : V3) : P3 :=
  let dI := lengthP (subP np (finV src))
  let ion := F.fmin (F.fin 1) (F.div dI (F.fin 5))
  ⟨F.fmax (F.fin 0.2) (F.sub (F.fin 1) ion),
   F.add (F.fin 0.3) (F.mul ion (F.fin 0.2)),
   F.add (F.fin 0.2) (F.mul ion (F.fin 0.8))⟩

/-- The force-accumulation chain of src lines 464-512: Lorentz force with its
NaN check, corotation with its NaN check, radial containment with its NaN
check, vertical damping, and the unconditional equatorial pull; returns the
velocity just before the speed clamp. -/
noncomputable def preClampVel (rotation : ℝ) (p v : P3) : P3 :=
  let distance := lengthP p
  let B := getMagneticFieldVectorF p rotation
  let force := crossP v B
  let v1 := if F.isNaNb (lengthP force) = true then v else addP v force
  let coroSpeed := F.mul (F.fin JUPITER_ROTATION_SPEED)
    (F.sub (F.fin 1) (F.exp (F.div (F.neg (lengthP p)) (F.fin 15))))
  let corotation := mulScalarP (normalizeP ⟨F.neg p.z, F.fin 0, p.x⟩) coroSpeed
  let v2 := if F.isNaNb (lengthP corotation) = true then v1 else addP v1 corotation
  let radialStrength :=
    if F.lt (F.fin TORUS_RADIUS) distance
      then F.mul (F.fin (-0.01)) (F.sub distance (F.fin TORUS_RADIUS))
      else F.mul (F.fin 0.01) (F.sub (F.fin TORUS_RADIUS) distance)
  let v3 := if F.isNaNb radialStrength = true then v2
            else addP v2 (mulScalarP (normalizeP p) radialStrength)
  let v4 : P3 := ⟨v3.x, F.mul v3.y (F.fin 0.95), v3.z⟩
  addP v4 ⟨F.fin 0, F.mul (F.neg p.y) (F.fin 0.02), F.fin 0⟩

/-- The speed clamp of src lines 514-519: if `|velocity| > 0.2`, rescale by
`0.2 / currentSpeed`. -/
noncomputable def clampVel (v5 : P3) : P3 :=
  if F.lt (F.fin 0.2) (lengthP v5)
    then mulScalarP v5 (F.div (F.fin 0.2) (lengthP v5))
    else v5

/-- The final validity check, integration and colour update of src lines
521-550: if `|velocity|` is NaN, reset the slot to the source with zero
velocity and unchanged colour; otherwise add the velocity to the position,
store it, and recolour by the ionization proxy. -/
noncomputable def stepFinal (src : V3) (p v6 c : P3) : StepOut :=
  if F.isNaNb (lengthP v6) = true then ⟨finV src, zeroP, c, 0⟩
  else ⟨addP p v6, v6, ionColor (addP p v6) src, 0⟩

/-- The guarded-through part of the integrator body (everything after the two
guards of src lines 428-462). -/
noncomputable def stepMain (src : V3) (rotation : ℝ) (p v c : P3) : StepOut :=
  stepFinal src p (clampVel (preClampVel rotation p v)) c

/-- The per-slot integrator body (src lines 424-551): NaN guard (reset to the
source exactly, consuming no draws), bounds guard (reset to source plus
jitter, consuming three draws), then the force/integration/colour chain. -/
noncomputable def stepSlot (r : ℕ → ℝ) (k : ℕ) (src : V3) (rotation : ℝ)
    (p v c : P3) : StepOut :=
  if (F.isNaNb p.x || F.isNaNb p.y || F.isNaNb p.z) = true then
    ⟨finV src, zeroP, c, 0⟩
  else if F.lt (F.fin MAX_DISTANCE) (lengthP p) ∨ F.lt (lengthP p) (F.fin MIN_DISTANCE) then
    ⟨finV (jitterPos src 0.8 (r k) (r (k+1)) (r (k+2))), zeroP, c, 3⟩
  else stepMain src rotation p v c

/-- The integrator pass, slot `i` upward with the given fuel, threading the
draw index.  The source walks `i` from `0` to
`Math.max(MAX_PARTICLES, activeParticles) - 1` (src line 423-424). -/
noncomputable def integAux (r : ℕ → ℝ) (src : V3) (rotation : ℝ) :
    ℕ → ℕ → Bufs × ℕ → Bufs × ℕ
  | _, 0, st => st
  | i, Nat.succ fuel, (b, k) =>
      let o := stepSlot r k src rotation (readSlot b.pos i) (readSlot b.vel i)
        (readSlot b.col i)
      integAux r src rotation (i + 1) fuel
        (⟨writeSlot b.pos i o.pos, writeSlot b.vel i o.vel, writeSlot b.col i o.col⟩,
         k + o.used)

/-- One full simulation tick (src lines 318-556): controller advance and
emission, then the integrator pass over `max(MAX_PARTICLES, activeParticles)`
slots (the bound uses the tick-start `activeParticles` destructured at line
319). -/
noncomputable def tick (r : ℕ → ℝ) (src : V3) (rotation : ℝ) (s : Sim) : Sim :=
  let e := emitPhase r src s
  let out := integAux r src rotation 0 (Nat.max MAX_PARTICLES s.active) (e.2.1, e.2.2.2)
  ⟨out.1, e.2.2.1, e.1⟩

/-- Iterated ticks with a fresh draw stream, source position and rotation
angle per tick. -/
noncomputable def runTicks (rs : ℕ → ℕ → ℝ) (srcs : ℕ → V3) (rots : ℕ → ℝ) :
    ℕ → Sim → Sim
  | 0, s => s
  | Nat.succ n, s => tick (rs n) (srcs n) (rots n) (runTicks rs srcs rots n s)

/-- The initial pool (src lines 201-210 and 37-60): all positions and
velocities zero, colours `(1, 0.5, 0.2)`, `activeParticles = 0`, eruption
state quiescent with no cooldown. -/
def initSim : Sim :=
  ⟨⟨fun _ => zeroP, fun _ => zeroP, fun _ => finV bgColor⟩, 0, ⟨false, 0, 0⟩⟩

/-! ## Concrete draw streams used in closed-instance theorems -/

/-- The all-zero draw stream (every roll succeeds, all jitter is `-0.5`). -/
def zStream : ℕ → ℝ := fun _ => 0

/-- A stream whose first draw fails the eruption-chance roll and whose second
passes the background-emission roll. -/
noncomputable def bgStream : ℕ → ℝ := fun k => if k = 0 then 0.5 else 0.05

/-- Per-tick streams realising 999 background emissions, then an eruption
start, then one erupting tick with five successful spawns. -/
noncomputable def overflowStreams : ℕ → ℕ → ℝ :=
  fun t => if t < 999 then bgStream else zStream

def constSrc : ℕ → V3 := fun _ => ⟨12, 0, 0⟩

def constRot : ℕ → ℝ := fun _ => 0

/-! ## Predicates used by the claims -/

/-- The scalar is a finite number (neither NaN nor an infinity). -/
def isFinF (f : F) : Prop := ∃ a : ℝ, f = F.fin a

def allFin (p : P3) : Prop := isFinF p.x ∧ isFinF p.y ∧ isFinF p.z

/-- The scalar is a finite number in the closed unit interval. -/
def inUnit (f : F) : Prop := ∃ a : ℝ, f = F.fin a ∧ 0 ≤ a ∧ a ≤ 1

def inUnit3 (p : P3) : Prop := inUnit p.x ∧ inUnit p.y ∧ inUnit p.z

/-- The slot has some NaN position component. -/
def hasNaN (p : P3) : Prop := p.x = F.nan ∨ p.y = F.nan ∨ p.z = F.nan

/-! # Theorems

## Rotation and dipole algebra (claims C4 and C5) -/

theorem dotV_rotX (a : ℝ) (v : V3) : dotV (rotX a v) (rotX a v) = dotV v v := by
  have h := Real.sin_sq_add_cos_sq a
  simp only [rotX, dotV]
  linear_combination (v.y * v.y + v.z * v.z) * h

theorem dotV_rotY (a : ℝ) (v : V3) : dotV (rotY a v) (rotY a v) = dotV v v := by
  have h := Real.sin_sq_add_cos_sq a
  simp only [rotY, dotV]
  linear_combination (v.x * v.x + v.z * v.z) * h

theorem lenV_rotY (a : ℝ) (v : V3) : lenV (rotY a v) = lenV v := by
  simp only [lenV, dotV_rotY]

theorem lenV_rotX (a : ℝ) (v : V3) : lenV (rotX a v) = lenV v := by
  simp only [lenV, dotV_rotX]

theorem rotY_rotY_neg (a : ℝ) (v : V3) : rotY (-a) (rotY a v) = v := by
  have h := Real.sin_sq_add_cos_sq a
  simp only [rotY, Real.cos_neg, Real.sin_neg]
  refine V3.ext ?_ ?_ ?_ <;> dsimp
  · linear_combination v.x * h
  · linear_combination v.z * h

theorem rotY_neg_rotY (a : ℝ) (v : V3) : rotY a (rotY (-a) v) = v := by
  have h := Real.sin_sq_add_cos_sq a
  simp only [rotY, Real.cos_neg, Real.sin_neg]
  refine V3.ext ?_ ?_ ?_ <;> dsimp
  · linear_combination v.x * h
  · linear_combination v.z * h

theorem rotX_rotX_neg (a : ℝ) (v : V3) : rotX (-a) (rotX a v) = v := by
  have h := Real.sin_sq_add_cos_sq a
  simp only [rotX, Real.cos_neg, Real.sin_neg]
  refine V3.ext ?_ ?_ ?_ <;> dsimp
  · linear_combination v.y * h
  · linear_combination v.z * h

/-- The dipole evaluation commutes with rotations about the moment axis. -/
theorem dipoleCore_rotY (a : ℝ) (v : V3) :
    dipoleCore (rotY a v) = rotY a (dipoleCore v) := by
  simp only [dipoleCore, lenV_rotY]
  ext <;> simp only [rotY, smulV, subV, dotV, mV] <;> ring

/-- The dipole evaluation is even under point inversion. -/
theorem dipoleCore_neg (v : V3) : dipoleCore (negV v) = dipoleCore v := by
  have hd : dotV (negV v) (negV v) = dotV v v := by simp only [negV, dotV]; ring
  simp only [dipoleCore, lenV, hd]
  ext <;> simp only [negV, smulV, subV, dotV, mV] <;> ring

theorem rotX_negV (a : ℝ) (v : V3) : rotX a (negV v) = negV (rotX a v) := by
  ext <;> simp only [rotX, negV] <;> ring

theorem rotY_negV (a : ℝ) (v : V3) : rotY a (negV v) = negV (rotY a v) := by
  ext <;> simp only [rotY, negV] <;> ring

theorem rotX_zeroV (a : ℝ) : rotX a zeroV = zeroV := by
  simp only [rotX, zeroV]
  refine V3.ext ?_ ?_ ?_ <;> dsimp <;> ring

theorem rotY_zeroV (a : ℝ) : rotY a zeroV = zeroV := by
  simp only [rotY, zeroV]
  refine V3.ext ?_ ?_ ?_ <;> dsimp <;> ring

theorem smulV_cancel {s : ℝ} (hs : s ≠ 0) {v : V3} (h : smulV s v = zeroV) :
    v = zeroV := by
  have hx := congrArg V3.x h
  have hy := congrArg V3.y h
  have hz := congrArg V3.z h
  simp [smulV, zeroV, hs] at hx hy hz
  refine V3.ext ?_ ?_ ?_ <;> simpa [zeroV]

theorem rotX_cancel {a : ℝ} {v : V3} (h : rotX a v = zeroV) : v = zeroV := by
  have h2 := congrArg (rotX (-a)) h
  rwa [rotX_rotX_neg, rotX_zeroV] at h2

theorem rotY_cancel {a : ℝ} {v : V3} (h : rotY a v = zeroV) : v = zeroV := by
  have h2 := congrArg (rotY (-a)) h
  rwa [rotY_rotY_neg, rotY_zeroV] at h2

theorem MAGNETIC_FIELD_STRENGTH_ne_zero : MAGNETIC_FIELD_STRENGTH ≠ 0 := by
  unfold MAGNETIC_FIELD_STRENGTH; norm_num

/-- The inversion symmetry of the full field function: rotations are linear
and the dipole core is even, so the field at `-p` EQUALS the field at `p`. -/
theorem fieldVector_even (p : V3) (rotation : ℝ) :
    getMagneticFieldVector (negV p) rotation = getMagneticFieldVector p rotation := by
  unfold getMagneticFieldVector
  rw [rotX_negV, rotY_negV, dipoleCore_neg]

/-- The field is nonzero at every point of positive norm. -/
theorem fieldVector_ne_zero (p : V3) (rotation : ℝ) (hp : 0 < lenV p) :
    getMagneticFieldVector p rotation ≠ zeroV := by
  intro h0
  have hpp : 0 < dotV p p := Real.sqrt_pos.mp (by simpa [lenV] using hp)
  unfold getMagneticFieldVector at h0
  set q : V3 := rotY rotation (rotX MAGNETIC_TILT p) with hqdef
  have hdq : dotV q q = dotV p p := by rw [hqdef, dotV_rotY, dotV_rotX]
  have hq0 : 0 < dotV q q := by rw [hdq]; exact hpp
  have hr : 0 < lenV q := by unfold lenV; exact Real.sqrt_pos.mpr hq0
  have hr2 : lenV q * lenV q = dotV q q := by unfold lenV; exact Real.mul_self_sqrt hq0.le
  have h1 := rotY_cancel (rotX_cancel (smulV_cancel MAGNETIC_FIELD_STRENGTH_ne_zero h0))
  simp only [dipoleCore] at h1
  have hr5 : (0:ℝ) < lenV q * lenV q * (lenV q * lenV q) * lenV q :=
    mul_pos (mul_pos (mul_pos hr hr) (mul_pos hr hr)) hr
  have h2 := smulV_cancel (one_div_ne_zero (ne_of_gt hr5)) h1
  have hx := congrArg V3.x h2
  have hy := congrArg V3.y h2
  have hz := congrArg V3.z h2
  simp [subV, smulV, mV, dotV, zeroV] at hx hy hz
  have hq0' : 0 < q.x * q.x + q.y * q.y + q.z * q.z := by simpa [dotV] using hq0
  have hyd : 3 * q.y * q.y = q.x * q.x + q.y * q.y + q.z * q.z := by
    have h3 := hr2
    simp [dotV] at h3
    nlinarith [hy, h3]
  rcases hx with hy0 | hx0
  · nlinarith [hq0', hyd, hy0]
  · rcases hz with hy0 | hz0
    · nlinarith [hq0', hyd, hy0]
    · nlinarith [hq0', hyd, hx0, hz0]

theorem eq_negV_self {v : V3} (h : v = negV v) : v = zeroV := by
  have hx := congrArg V3.x h
  have hy := congrArg V3.y h
  have hz := congrArg V3.z h
  simp [negV] at hx hy hz
  refine V3.ext ?_ ?_ ?_ <;> simp [zeroV] <;> linarith

/-- C4: for every position `p` and rotation angle `rotation`, the source's
`getMagneticFieldVector` computes exactly the procedure described by the
spec (rotate by the tilt about x then by `-rotation` about y, apply the
dipole formula `B = (3(m·r)r - m·r²)/r⁵` with `m` the unit y-vector, rotate
back by `+rotation` about y then by `-tilt` about x, and scale by the field
strength).  The source applies the y-rotations with the opposite sign
convention, but the dipole core commutes with rotations about the moment
axis, so the two procedures are extensionally equal. -/
theorem field_matches_spec_procedure (p : V3) (rotation : ℝ) :
    getMagneticFieldVector p rotation = fieldAtSpecProcedure p rotation := by
  unfold getMagneticFieldVector fieldAtSpecProcedure
  rw [dipoleCore_rotY rotation, rotY_rotY_neg]
  rw [dipoleCore_rotY (-rotation), rotY_neg_rotY]

/-- C5 (amended): for `|p| > 0` the vectors `fieldAt(p, rotation)` and
`fieldAt(-p, rotation)` are exactly EQUAL (parallel, same direction, equal
magnitude) and nonzero — the dipole field is even under point inversion,
not antiparallel. -/
theorem field_inversion_parallel (p : V3) (rotation : ℝ) (hp : 0 < lenV p) :
    getMagneticFieldVector (negV p) rotation = getMagneticFieldVector p rotation ∧
    getMagneticFieldVector p rotation ≠ zeroV :=
  ⟨fieldVector_even p rotation, fieldVector_ne_zero p rotation hp⟩

theorem field_inversion_parallel_witness :
    0 < lenV ⟨0, 10, 0⟩ ∧
    (getMagneticFieldVector (negV ⟨0, 10, 0⟩) 0 = getMagneticFieldVector ⟨0, 10, 0⟩ 0 ∧
      getMagneticFieldVector ⟨0, 10, 0⟩ 0 ≠ zeroV) :=
  ⟨by unfold lenV; exact Real.sqrt_pos.mpr (by norm_num [dotV]),
   field_inversion_parallel ⟨0, 10, 0⟩ 0
     (by unfold lenV; exact Real.sqrt_pos.mpr (by norm_num [dotV]))⟩

/-- C5 counterexample: at `p₀ = (0, 10, 0)` (norm 10 > 0) and rotation angle
0, the field at `-p₀` is EQUAL to the nonzero field at `p₀`, hence the two
vectors are not antiparallel. -/
theorem field_antiparallel_cex :
    getMagneticFieldVector (negV ⟨0, 10, 0⟩) 0 = getMagneticFieldVector ⟨0, 10, 0⟩ 0 ∧
    getMagneticFieldVector ⟨0, 10, 0⟩ 0 ≠ zeroV ∧
    ¬ (getMagneticFieldVector (negV ⟨0, 10, 0⟩) 0 =
        negV (getMagneticFieldVector ⟨0, 10, 0⟩ 0)) := by
  have hp : 0 < lenV (⟨0, 10, 0⟩ : V3) := by
    unfold lenV; exact Real.sqrt_pos.mpr (by norm_num [dotV])
  have he := fieldVector_even ⟨0, 10, 0⟩ 0
  have hn := fieldVector_ne_zero ⟨0, 10, 0⟩ 0 hp
  refine ⟨he, hn, ?_⟩
  intro hcontra
  rw [he] at hcontra
  exact hn (eq_negV_self hcontra)

/-! ## Scalar-model lemmas -/

theorem F_isNaNb_iff {f : F} : F.isNaNb f = true ↔ f = F.nan := by
  cases f <;> simp [F.isNaNb]

theorem F_add_nan_left (b : F) : F.add F.nan b = F.nan := by cases b <;> rfl

theorem F_add_nan_right (a : F) : F.add a F.nan = F.nan := by cases a <;> rfl

theorem F_mul_nan_left (b : F) : F.mul F.nan b = F.nan := by cases b <;> rfl

theorem F_mul_nan_right (a : F) : F.mul a F.nan = F.nan := by cases a <;> rfl

theorem allFin_finV (v : V3) : allFin (finV v) := ⟨⟨v.x, rfl⟩, ⟨v.y, rfl⟩, ⟨v.z, rfl⟩⟩

theorem allFin_zeroP : allFin zeroP := allFin_finV zeroV

theorem allFin_addP {p q : P3} (hp : allFin p) (hq : allFin q) : allFin (addP p q) := by
  obtain ⟨⟨a, ha⟩, ⟨b, hb⟩, ⟨c, hc⟩⟩ := hp
  obtain ⟨⟨d, hd⟩, ⟨e, he⟩, ⟨f, hf⟩⟩ := hq
  exact ⟨⟨a + d, by simp [addP, ha, hd, F.add]⟩, ⟨b + e, by simp [addP, hb, he, F.add]⟩,
         ⟨c + f, by simp [addP, hc, hf, F.add]⟩⟩

theorem allFin_subP {p q : P3} (hp : allFin p) (hq : allFin q) : allFin (subP p q) := by
  obtain ⟨⟨a, ha⟩, ⟨b, hb⟩, ⟨c, hc⟩⟩ := hp
  obtain ⟨⟨d, hd⟩, ⟨e, he⟩, ⟨f, hf⟩⟩ := hq
  exact ⟨⟨a + -d, by simp [subP, ha, hd, F.sub, F.neg, F.add]⟩,
         ⟨b + -e, by simp [subP, hb, he, F.sub, F.neg, F.add]⟩,
         ⟨c + -f, by simp [subP, hc, hf, F.sub, F.neg, F.add]⟩⟩

theorem allFin_mulScalar_fin {p : P3} (hp : allFin p) (t : ℝ) :
    allFin (mulScalarP p (F.fin t)) := by
  obtain ⟨⟨a, ha⟩, ⟨b, hb⟩, ⟨c, hc⟩⟩ := hp
  exact ⟨⟨a * t, by simp [mulScalarP, ha, F.mul]⟩, ⟨b * t, by simp [mulScalarP, hb, F.mul]⟩,
         ⟨c * t, by simp [mulScalarP, hc, F.mul]⟩⟩

/-- A NaN in any component makes the THREE `length()` NaN. -/
theorem lengthP_nan_of_nan (p : P3) (h : hasNaN p) : lengthP p = F.nan := by
  rcases p with ⟨x, y, z⟩
  rcases h with h | h | h <;> dsimp at h <;> subst h <;>
    simp [lengthP, dotP, F_mul_nan_left, F_add_nan_left, F_add_nan_right, F.sqrt]

/-- With all components finite, `length()` is a finite nonnegative value. -/
theorem lengthP_fin {p : P3} (h : allFin p) : ∃ s : ℝ, lengthP p = F.fin s ∧ 0 ≤ s := by
  obtain ⟨⟨a, ha⟩, ⟨b, hb⟩, ⟨c, hc⟩⟩ := h
  rcases p with ⟨px, py, pz⟩
  dsimp at ha hb hc
  subst ha; subst hb; subst hc
  refine ⟨Real.sqrt (a * a + b * b + c * c), ?_, Real.sqrt_nonneg _⟩
  simp only [lengthP, dotP, F.mul, F.add, F.sqrt]
  rw [if_neg (not_lt.mpr (by nlinarith [mul_self_nonneg a, mul_self_nonneg b, mul_self_nonneg c]))]

/-- Without NaN components but with some infinite component, `length()` is
`+inf`. -/
theorem lengthP_pinf (p : P3) (hn : ¬ hasNaN p) (hf : ¬ allFin p) :
    lengthP p = F.pinf := by
  rcases p with ⟨x, y, z⟩
  cases x <;> cases y <;> cases z <;>
    simp_all [hasNaN, allFin, isFinF, lengthP, dotP, F.mul, F.add, F.sqrt]

theorem lengthP_ne_ninf (p : P3) : lengthP p ≠ F.ninf := by
  unfold lengthP
  cases h : dotP p p <;> simp [F.sqrt]
  split <;> simp

theorem hasNaN_of_length_nan {p : P3} (h : lengthP p = F.nan) : hasNaN p := by
  by_contra hn
  by_cases hf : allFin p
  · obtain ⟨s, h2, _⟩ := lengthP_fin hf
    rw [h2] at h; exact F.noConfusion h
  · rw [lengthP_pinf p hn hf] at h; exact F.noConfusion h

theorem allFin_of_length_fin {p : P3} {s : ℝ} (h : lengthP p = F.fin s) : allFin p := by
  by_cases hn : hasNaN p
  · rw [lengthP_nan_of_nan p hn] at h; exact F.noConfusion h
  · by_contra hf
    rw [lengthP_pinf p hn hf] at h; exact F.noConfusion h

theorem exists_inf_comp {p : P3} (hn : ¬ hasNaN p) (hf : ¬ allFin p) :
    (p.x = F.pinf ∨ p.x = F.ninf) ∨ (p.y = F.pinf ∨ p.y = F.ninf) ∨
    (p.z = F.pinf ∨ p.z = F.ninf) := by
  rcases p with ⟨x, y, z⟩
  cases x <;> cases y <;> cases z <;> simp_all [hasNaN, allFin, isFinF]

theorem F_mul_inf_zero {x : F} (h : x = F.pinf ∨ x = F.ninf) :
    F.mul x (F.fin 0) = F.nan := by
  rcases h with h | h <;> subst h <;> simp [F.mul]

theorem F_div_fin5 (s : ℝ) : F.div (F.fin s) (F.fin 5) = F.fin (s / 5) := by
  simp only [F.div]
  rw [if_neg (by norm_num)]

/-- The integrator's colour update always lands in the unit cube. -/
theorem ionColor_inUnit (np : P3) (src : V3) (h : allFin np) :
    inUnit3 (ionColor np src) := by
  obtain ⟨s, hs, hs0⟩ := lengthP_fin (allFin_subP h (allFin_finV src))
  have hι0 : 0 ≤ min 1 (s / 5) := le_min (by norm_num) (by positivity)
  have hι1 : min 1 (s / 5) ≤ 1 := min_le_left _ _
  simp only [ionColor]
  rw [hs, F_div_fin5]
  simp only [F.fmin, F.sub, F.neg, F.add, F.fmax, F.mul]
  refine ⟨⟨_, rfl, ?_, ?_⟩, ⟨_, rfl, ?_, ?_⟩, ⟨_, rfl, ?_, ?_⟩⟩
  · exact le_trans (by norm_num) (le_max_left _ _)
  · exact max_le (by norm_num) (by linarith)
  · nlinarith
  · nlinarith
  · nlinarith
  · nlinarith

/-- After the speed clamp the velocity is entirely finite or carries a NaN
component (an infinite speed turns into NaN via the `0.2 / inf = 0` scale). -/
theorem clampVel_classify (v5 : P3) : allFin (clampVel v5) ∨ hasNaN (clampVel v5) := by
  unfold clampVel
  cases hL : lengthP v5 with
  | fin s =>
      have hv : allFin v5 := allFin_of_length_fin hL
      by_cases hlt : F.lt (F.fin 0.2) (F.fin s)
      · rw [if_pos hlt]
        simp only [F.lt] at hlt
        have hdiv : F.div (F.fin 0.2) (F.fin s) = F.fin (0.2 / s) := by
          simp only [F.div]
          rw [if_neg (by intro h0; rw [h0] at hlt; norm_num at hlt)]
        rw [hdiv]
        exact Or.inl (allFin_mulScalar_fin hv _)
      · rw [if_neg hlt]
        exact Or.inl hv
  | pinf =>
      rw [if_pos (by simp [F.lt])]
      have hn : ¬ hasNaN v5 := fun h => by
        rw [lengthP_nan_of_nan v5 h] at hL; exact F.noConfusion hL
      have hf : ¬ allFin v5 := fun h => by
        obtain ⟨t, ht, _⟩ := lengthP_fin h
        rw [ht] at hL; exact F.noConfusion hL
      have hdiv : F.div (F.fin 0.2) F.pinf = F.fin 0 := rfl
      rw [hdiv]
      right
      rcases exists_inf_comp hn hf with h | h | h
      · exact Or.inl (by simpa [mulScalarP] using F_mul_inf_zero h)
      · exact Or.inr (Or.inl (by simpa [mulScalarP] using F_mul_inf_zero h))
      · exact Or.inr (Or.inr (by simpa [mulScalarP] using F_mul_inf_zero h))
  | ninf => exact absurd hL (lengthP_ne_ninf v5)
  | nan =>
      rw [if_neg (by simp [F.lt])]
      exact Or.inr (hasNaN_of_length_nan hL)

theorem stepFinal_spec (src : V3) (p v6 c : P3) (hp : allFin p)
    (h6 : allFin v6 ∨ hasNaN v6) :
    allFin (stepFinal src p v6 c).pos ∧ allFin (stepFinal src p v6 c).vel ∧
      ((stepFinal src p v6 c).col = c ∨ inUnit3 (stepFinal src p v6 c).col) := by
  unfold stepFinal
  by_cases hnan : F.isNaNb (lengthP v6) = true
  · rw [if_pos hnan]
    exact ⟨allFin_finV src, allFin_zeroP, Or.inl rfl⟩
  · rw [if_neg hnan]
    have hfin : allFin v6 := by
      rcases h6 with h | h
      · exact h
      · exact absurd (by rw [lengthP_nan_of_nan v6 h]; rfl) hnan
    exact ⟨allFin_addP hp hfin, hfin, Or.inr (ionColor_inUnit _ src (allFin_addP hp hfin))⟩

/-- Every exit path of the integrator body produces a finite position and
velocity, and either leaves the colour untouched or writes an in-range
colour. -/
theorem stepSlot_spec (r : ℕ → ℝ) (k : ℕ) (src : V3) (rotation : ℝ) (p v c : P3) :
    allFin (stepSlot r k src rotation p v c).pos ∧
    allFin (stepSlot r k src rotation p v c).vel ∧
    ((stepSlot r k src rotation p v c).col = c ∨
      inUnit3 (stepSlot r k src rotation p v c).col) := by
  unfold stepSlot
  by_cases h1 : (F.isNaNb p.x || F.isNaNb p.y || F.isNaNb p.z) = true
  · rw [if_pos h1]
    exact ⟨allFin_finV src, allFin_zeroP, Or.inl rfl⟩
  · rw [if_neg h1]
    by_cases h2 : F.lt (F.fin MAX_DISTANCE) (lengthP p) ∨ F.lt (lengthP p) (F.fin MIN_DISTANCE)
    · rw [if_pos h2]
      exact ⟨allFin_finV _, allFin_zeroP, Or.inl rfl⟩
    · rw [if_neg h2]
      have hn : ¬ hasNaN p := by
        intro h
        apply h1
        rcases h with h | h | h <;> rw [h] <;> simp [F.isNaNb]
      have hp : allFin p := by
        by_contra hf
        exact h2 (Or.inl (by rw [lengthP_pinf p hn hf]; simp [F.lt]))
      unfold stepMain
      exact stepFinal_spec src p _ c hp (clampVel_classify _)

/-! ## Integrator loop lemmas -/

theorem writeSlot_ne (f : ℕ → P3) (i j : ℕ) (v : P3) (h : j ≠ i) :
    writeSlot f i v j = f j := by
  unfold writeSlot
  split
  · exact Function.update_noteq h v f
  · rfl

theorem writeSlot_eq (f : ℕ → P3) (i : ℕ) (v : P3) (h : i < MAX_PARTICLES) :
    writeSlot f i v i = v := by
  unfold writeSlot
  rw [if_pos h]
  exact Function.update_same i v f

theorem readSlot_lt (f : ℕ → P3) (i : ℕ) (h : i < MAX_PARTICLES) :
    readSlot f i = f i := if_pos h

/-- The loop never touches slots below its current index. -/
theorem integAux_lower (r : ℕ → ℝ) (src : V3) (rotation : ℝ) :
    ∀ (fuel i : ℕ) (st : Bufs × ℕ) (j : ℕ), j < i →
      (integAux r src rotation i fuel st).1.pos j = st.1.pos j ∧
      (integAux r src rotation i fuel st).1.vel j = st.1.vel j ∧
      (integAux r src rotation i fuel st).1.col j = st.1.col j := by
  intro fuel
  induction fuel with
  | zero => intro i st j hj; exact ⟨rfl, rfl, rfl⟩
  | succ n ih =>
      intro i st j hj
      rcases st with ⟨b, k⟩
      simp only [integAux]
      obtain ⟨h1, h2, h3⟩ := ih (i + 1)
        (⟨writeSlot b.pos i (stepSlot r k src rotation (readSlot b.pos i) (readSlot b.vel i) (readSlot b.col i)).pos,
          writeSlot b.vel i (stepSlot r k src rotation (readSlot b.pos i) (readSlot b.vel i) (readSlot b.col i)).vel,
          writeSlot b.col i (stepSlot r k src rotation (readSlot b.pos i) (readSlot b.vel i) (readSlot b.col i)).col⟩,
         k + (stepSlot r k src rotation (readSlot b.pos i) (readSlot b.vel i) (readSlot b.col i)).used)
        j (by omega)
      rw [h1, h2, h3]
      refine ⟨?_, ?_, ?_⟩ <;> exact writeSlot_ne _ _ _ _ (by omega)

/-- Each in-range slot inside the walked window ends up as the integrator
body's output on its pre-pass value, at some draw index. -/
theorem integAux_out (r : ℕ → ℝ) (src : V3) (rotation : ℝ) :
    ∀ (fuel i : ℕ) (st : Bufs × ℕ) (j : ℕ), i ≤ j → j < i + fuel → j < MAX_PARTICLES →
      ∃ k : ℕ,
        (integAux r src rotation i fuel st).1.pos j =
          (stepSlot r k src rotation (st.1.pos j) (st.1.vel j) (st.1.col j)).pos ∧
        (integAux r src rotation i fuel st).1.vel j =
          (stepSlot r k src rotation (st.1.pos j) (st.1.vel j) (st.1.col j)).vel ∧
        (integAux r src rotation i fuel st).1.col j =
          (stepSlot r k src rotation (st.1.pos j) (st.1.vel j) (st.1.col j)).col := by
  intro fuel
  induction fuel with
  | zero => intro i st j hij hlt; omega
  | succ n ih =>
      intro i st j hij hlt hmax
      rcases st with ⟨b, k⟩
      simp only [integAux]
      by_cases hji : j = i
      · subst hji
        obtain ⟨h1, h2, h3⟩ := integAux_lower r src rotation n (j + 1)
          (⟨writeSlot b.pos j (stepSlot r k src rotation (readSlot b.pos j) (readSlot b.vel j) (readSlot b.col j)).pos,
            writeSlot b.vel j (stepSlot r k src rotation (readSlot b.pos j) (readSlot b.vel j) (readSlot b.col j)).vel,
            writeSlot b.col j (stepSlot r k src rotation (readSlot b.pos j) (readSlot b.vel j) (readSlot b.col j)).col⟩,
           k + (stepSlot r k src rotation (readSlot b.pos j) (readSlot b.vel j) (readSlot b.col j)).used)
          j (by omega)
        refine ⟨k, ?_, ?_, ?_⟩
        · rw [h1]; dsimp only
          rw [writeSlot_eq _ _ _ hmax, readSlot_lt b.pos j hmax, readSlot_lt b.vel j hmax,
              readSlot_lt b.col j hmax]
        · rw [h2]; dsimp only
          rw [writeSlot_eq _ _ _ hmax, readSlot_lt b.pos j hmax, readSlot_lt b.vel j hmax,
              readSlot_lt b.col j hmax]
        · rw [h3]; dsimp only
          rw [writeSlot_eq _ _ _ hmax, readSlot_lt b.pos j hmax, readSlot_lt b.vel j hmax,
              readSlot_lt b.col j hmax]
      · obtain ⟨k2, h1, h2, h3⟩ := ih (i + 1)
          (⟨writeSlot b.pos i (stepSlot r k src rotation (readSlot b.pos i) (readSlot b.vel i) (readSlot b.col i)).pos,
            writeSlot b.vel i (stepSlot r k src rotation (readSlot b.pos i) (readSlot b.vel i) (readSlot b.col i)).vel,
            writeSlot b.col i (stepSlot r k src rotation (readSlot b.pos i) (readSlot b.vel i) (readSlot b.col i)).col⟩,
           k + (stepSlot r k src rotation (readSlot b.pos i) (readSlot b.vel i) (readSlot b.col i)).used)
          j (by omega) (by omega) hmax
        refine ⟨k2, ?_, ?_, ?_⟩
        · rw [h1]; dsimp only
          rw [writeSlot_ne _ _ _ _ (by omega), writeSlot_ne _ _ _ _ (by omega),
              writeSlot_ne _ _ _ _ (by omega)]
        · rw [h2]; dsimp only
          rw [writeSlot_ne _ _ _ _ (by omega), writeSlot_ne _ _ _ _ (by omega),
              writeSlot_ne _ _ _ _ (by omega)]
        · rw [h3]; dsimp only
          rw [writeSlot_ne _ _ _ _ (by omega), writeSlot_ne _ _ _ _ (by omega),
              writeSlot_ne _ _ _ _ (by omega)]

/-- C6: for every pool state (however degenerate) and every tick with finite
source position, finite rotation angle, and finite RNG draws — all of these
are exact reals in the model — after the full tick (controller advance,
emission and the integrator pass over all slots) every particle slot's
position and velocity components are finite: neither NaN nor infinite. -/
theorem tick_all_finite (r : ℕ → ℝ) (src : V3) (rotation : ℝ) (s : Sim)
    (i : ℕ) (h : i < MAX_PARTICLES) :
    allFin ((tick r src rotation s).bufs.pos i) ∧
    allFin ((tick r src rotation s).bufs.vel i) := by
  obtain ⟨k, hp, hv, _⟩ := integAux_out r src rotation (Nat.max MAX_PARTICLES s.active) 0
    ((emitPhase r src s).2.1, (emitPhase r src s).2.2.2) i (Nat.zero_le i)
    (by simpa using Nat.lt_of_lt_of_le h (Nat.le_max_left MAX_PARTICLES s.active)) h
  show allFin ((integAux r src rotation 0 (Nat.max MAX_PARTICLES s.active)
      ((emitPhase r src s).2.1, (emitPhase r src s).2.2.2)).1.pos i) ∧
    allFin ((integAux r src rotation 0 (Nat.max MAX_PARTICLES s.active)
      ((emitPhase r src s).2.1, (emitPhase r src s).2.2.2)).1.vel i)
  rw [hp, hv]
  exact ⟨(stepSlot_spec r k src rotation _ _ _).1, (stepSlot_spec r k src rotation _ _ _).2.1⟩

theorem tick_all_finite_witness :
    0 < MAX_PARTICLES ∧
    (allFin ((tick zStream ⟨12, 0, 0⟩ 0 initSim).bufs.pos 0) ∧
     allFin ((tick zStream ⟨12, 0, 0⟩ 0 initSim).bufs.vel 0)) :=
  ⟨by norm_num [MAX_PARTICLES],
   tick_all_finite zStream ⟨12, 0, 0⟩ 0 initSim 0 (by norm_num [MAX_PARTICLES])⟩

/-- C7 (amended): the integrator's first guard tests `isNaN` only, so the
exact-reset behaviour holds for slots with a NaN position component: such a
slot is reset to exactly the source position with zero velocity, no force
terms, no integration and no colour update (and no draws consumed).  (A slot
whose position is infinite but NaN-free falls to the bounds guard instead,
which adds jitter — see the counterexample.) -/
theorem nan_guard_exact_reset (r : ℕ → ℝ) (k : ℕ) (src : V3) (rotation : ℝ)
    (p v c : P3) (h : hasNaN p) :
    stepSlot r k src rotation p v c = ⟨finV src, zeroP, c, 0⟩ := by
  unfold stepSlot
  rw [if_pos (by rcases h with h | h | h <;> rw [h] <;> simp [F.isNaNb])]

theorem nan_guard_exact_reset_witness :
    hasNaN ⟨F.nan, F.fin 0, F.fin 0⟩ ∧
    stepSlot zStream 0 ⟨12, 0, 0⟩ 0 ⟨F.nan, F.fin 0, F.fin 0⟩ zeroP (finV bgColor) =
      ⟨finV ⟨12, 0, 0⟩, zeroP, finV bgColor, 0⟩ :=
  ⟨Or.inl rfl,
   nan_guard_exact_reset zStream 0 ⟨12, 0, 0⟩ 0 ⟨F.nan, F.fin 0, F.fin 0⟩ zeroP
     (finV bgColor) (Or.inl rfl)⟩

/-- C7 counterexample: the claim promises a reset to *exactly*
`sourcePosition` for any non-finite (NaN or ±infinity) component.  A slot at
`(+inf, 0, 0)` is NOT caught by the NaN guard (`isNaN(+inf)` is false); the
bounds guard resets it to source plus jitter, which at draws `0` is
`(11.6, -0.4, -0.4) ≠ (12, 0, 0)`. -/
theorem inf_position_not_exact_reset :
    (stepSlot zStream 0 ⟨12, 0, 0⟩ 0 ⟨F.pinf, F.fin 0, F.fin 0⟩ zeroP (finV bgColor)).pos =
      finV ⟨11.6, -0.4, -0.4⟩ ∧
    (stepSlot zStream 0 ⟨12, 0, 0⟩ 0 ⟨F.pinf, F.fin 0, F.fin 0⟩ zeroP (finV bgColor)).pos ≠
      finV ⟨12, 0, 0⟩ := by
  have hlen : lengthP ⟨F.pinf, F.fin 0, F.fin 0⟩ = F.pinf := by
    simp [lengthP, dotP, F.mul, F.add, F.sqrt]
  have hstep : stepSlot zStream 0 ⟨12, 0, 0⟩ 0 ⟨F.pinf, F.fin 0, F.fin 0⟩ zeroP (finV bgColor) =
      ⟨finV (jitterPos ⟨12, 0, 0⟩ 0.8 (zStream 0) (zStream (0+1)) (zStream (0+2))),
       zeroP, finV bgColor, 3⟩ := by
    unfold stepSlot
    rw [if_neg (by simp [F.isNaNb]), if_pos (Or.inl (by rw [hlen]; simp [F.lt]))]
  rw [hstep]
  constructor
  · show finV (jitterPos ⟨12, 0, 0⟩ 0.8 (zStream 0) (zStream (0+1)) (zStream (0+2))) =
      finV ⟨11.6, -0.4, -0.4⟩
    simp only [finV, jitterPos, zStream]
    norm_num
  · intro hEq
    have hx := congrArg P3.x hEq
    simp only [finV, jitterPos, zStream] at hx
    rw [F.fin.injEq] at hx
    norm_num at hx

/-- Stepping a never-written slot (origin position, zero velocity): the
origin's distance 0 is below `MIN_DISTANCE`, so the bounds guard fires. -/
theorem stepSlot_zero_slot (r : ℕ → ℝ) (k : ℕ) (src : V3) (rotation : ℝ) (c : P3) :
    stepSlot r k src rotation zeroP zeroP c =
      ⟨finV (jitterPos src 0.8 (r k) (r (k+1)) (r (k+2))), zeroP, c, 3⟩ := by
  have hlen : lengthP zeroP = F.fin 0 := by
    simp [lengthP, dotP, zeroP, finV, zeroV, F.mul, F.add, F.sqrt]
  unfold stepSlot
  rw [if_neg (by simp [zeroP, finV, zeroV, F.isNaNb]),
      if_pos (Or.inr (by rw [hlen]; simp [F.lt, MIN_DISTANCE]))]

/-- C8 (amended): idle slots are NOT fixed points of the integrator.  A slot
never written by the emitter sits at the origin with zero velocity; the
origin is strictly inside `MIN_DISTANCE`, so the bounds guard rewrites it to
the source position plus jitter with zero velocity (colour unchanged, three
draws consumed).  Consequently bounding the integrator loop by `activeCount`
instead of capacity yields different buffer contents: on the initial pool the
full walk moves slot 0 off the origin while the `activeCount`-bounded walk
leaves it there. -/
theorem idle_slot_not_fixed_point :
    (∀ (r : ℕ → ℝ) (k : ℕ) (src : V3) (rotation : ℝ) (c : P3),
        stepSlot r k src rotation zeroP zeroP c =
          ⟨finV (jitterPos src 0.8 (r k) (r (k+1)) (r (k+2))), zeroP, c, 3⟩) ∧
    (integAux zStream ⟨12, 0, 0⟩ 0 0 (Nat.max MAX_PARTICLES initSim.active)
        (initSim.bufs, 0)).1.pos 0 ≠
      (integAux zStream ⟨12, 0, 0⟩ 0 0 initSim.active (initSim.bufs, 0)).1.pos 0 := by
  refine ⟨stepSlot_zero_slot, ?_⟩
  have hzero : (integAux zStream ⟨12, 0, 0⟩ 0 0 initSim.active (initSim.bufs, 0)).1.pos 0 =
      zeroP := rfl
  have hone : (integAux zStream ⟨12, 0, 0⟩ 0 0 (Nat.max MAX_PARTICLES initSim.active)
      (initSim.bufs, 0)).1.pos 0 = finV (jitterPos ⟨12, 0, 0⟩ 0.8 0 0 0) := by
    obtain ⟨k, hp, _, _⟩ := integAux_out zStream ⟨12, 0, 0⟩ 0
      (Nat.max MAX_PARTICLES initSim.active) 0 (initSim.bufs, 0) 0 (le_refl 0)
      (by norm_num [MAX_PARTICLES]) (by norm_num [MAX_PARTICLES])
    rw [hp]
    show (stepSlot zStream k ⟨12, 0, 0⟩ 0 zeroP zeroP (finV bgColor)).pos =
      finV (jitterPos ⟨12, 0, 0⟩ 0.8 0 0 0)
    rw [stepSlot_zero_slot]
    rfl
  rw [hone, hzero]
  intro h
  have hx := congrArg P3.x h
  simp only [finV, jitterPos, zeroP, zeroV] at hx
  rw [F.fin.injEq] at hx
  norm_num at hx

/-- C8 counterexample: stepping the never-written slot at the origin (zero
velocity, initial colour) with source `(12,0,0)` and all-zero draws moves its
position to `(11.6, -0.4, -0.4)` — not a fixed point. -/
theorem idle_slot_cex :
    (stepSlot zStream 0 ⟨12, 0, 0⟩ 0 zeroP zeroP (finV bgColor)).pos =
      finV ⟨11.6, -0.4, -0.4⟩ ∧
    (stepSlot zStream 0 ⟨12, 0, 0⟩ 0 zeroP zeroP (finV bgColor)).pos ≠ zeroP := by
  rw [stepSlot_zero_slot]
  constructor
  · show finV (jitterPos ⟨12, 0, 0⟩ 0.8 (zStream 0) (zStream (0+1)) (zStream (0+2))) =
      finV ⟨11.6, -0.4, -0.4⟩
    simp only [finV, jitterPos, zStream]
    norm_num
  · intro h
    have hx := congrArg P3.x h
    simp only [finV, jitterPos, zeroP, zeroV, zStream] at hx
    rw [F.fin.injEq] at hx
    norm_num at hx

/-! ## Controller and emitter lemmas -/

theorem tick_er (r : ℕ → ℝ) (src : V3) (rotation : ℝ) (s : Sim) :
    (tick r src rotation s).er = (emitPhase r src s).1 := rfl

theorem tick_active (r : ℕ → ℝ) (src : V3) (rotation : ℝ) (s : Sim) :
    (tick r src rotation s).active = (emitPhase r src s).2.2.1 := rfl

/-- Erupting tick with more than one tick remaining: countdown decrements. -/
theorem emit_erupt_cont (r : ℕ → ℝ) (src : V3) (s : Sim) (h1 : s.er.isActive = true)
    (h2 : 1 < s.er.countdown) :
    (emitPhase r src s).1 = ⟨true, s.er.countdown - 1, s.er.cooldown⟩ := by
  unfold emitPhase
  rw [if_pos h1]
  dsimp only
  rw [if_neg (by omega)]

/-- Erupting tick on the final countdown tick: back to quiescent with the
full cooldown. -/
theorem emit_erupt_end (r : ℕ → ℝ) (src : V3) (s : Sim) (h1 : s.er.isActive = true)
    (h2 : s.er.countdown ≤ 1) :
    (emitPhase r src s).1 = ⟨false, s.er.countdown - 1, ERUPTION_COOLDOWN⟩ := by
  unfold emitPhase
  rw [if_pos h1]
  dsimp only
  rw [if_pos (by omega)]

/-- Cooling-down tick: only the cooldown decrements, no draws consulted. -/
theorem emit_cooldown (r : ℕ → ℝ) (src : V3) (s : Sim) (h1 : s.er.isActive = false)
    (h2 : 0 < s.er.cooldown) :
    (emitPhase r src s).1 = ⟨false, s.er.countdown, s.er.cooldown - 1⟩ ∧
    (emitPhase r src s).2.1 = s.bufs ∧
    (emitPhase r src s).2.2.1 = s.active := by
  unfold emitPhase
  rw [if_neg (by rw [h1]; simp), if_pos h2]
  exact ⟨rfl, rfl, rfl⟩

/-- Ready tick whose eruption roll succeeds: the controller flips to
erupting and the emission phase touches nothing. -/
theorem emit_ready_start (r : ℕ → ℝ) (src : V3) (s : Sim) (h1 : s.er.isActive = false)
    (h2 : ¬ 0 < s.er.cooldown) (h3 : r 0 < ERUPTION_CHANCE) :
    (emitPhase r src s).1 = ⟨true, ERUPTION_DURATION, s.er.cooldown⟩ ∧
    (emitPhase r src s).2.1 = s.bufs ∧
    (emitPhase r src s).2.2.1 = s.active := by
  unfold emitPhase
  rw [if_neg (by rw [h1]; simp), if_neg h2, if_pos h3]
  exact ⟨rfl, rfl, rfl⟩

/-- Ready tick, no eruption, successful background emission, pool not
saturated: one spawn, counter increments, eruption state unchanged. -/
theorem emit_bg_spawn (r : ℕ → ℝ) (src : V3) (s : Sim) (h1 : s.er.isActive = false)
    (h2 : ¬ 0 < s.er.cooldown) (h3 : ¬ r 0 < ERUPTION_CHANCE)
    (h4 : r 1 < BASE_EMISSION_RATE) (h5 : s.active < MAX_PARTICLES) :
    (emitPhase r src s).1 = s.er ∧ (emitPhase r src s).2.2.1 = s.active + 1 := by
  unfold emitPhase
  rw [if_neg (by rw [h1]; simp), if_neg h2, if_neg h3, if_pos h4, if_pos h5]
  exact ⟨rfl, rfl⟩

/-- Erupting tick: the live counter is whatever the spawn loop produces from
the tick-start snapshot. -/
theorem emit_erupt_active (r : ℕ → ℝ) (src : V3) (s : Sim) (h1 : s.er.isActive = true) :
    (emitPhase r src s).2.2.1 =
      (eruptLoop r src s.active PARTICLES_PER_FRAME_DURING_ERUPTION
        (s.bufs, s.active, 0)).2.1 := by
  unfold emitPhase
  rw [if_pos h1]

/-- C10: on a tick that transitions the controller from Ready to Erupting
(cooldown 0, not active, eruption roll succeeds) the emission phase spawns
nothing: the buffers and `activeCount` leave the emitter untouched, and the
tick ends with the controller erupting, so erupting-regime emission first
runs on the following tick. -/
theorem transition_tick_no_spawn (r : ℕ → ℝ) (src : V3) (rotation : ℝ) (s : Sim)
    (h1 : s.er.isActive = false) (h2 : s.er.cooldown = 0) (h3 : r 0 < ERUPTION_CHANCE) :
    (emitPhase r src s).1 = ⟨true, ERUPTION_DURATION, 0⟩ ∧
    (emitPhase r src s).2.1 = s.bufs ∧
    (emitPhase r src s).2.2.1 = s.active ∧
    (tick r src rotation s).active = s.active ∧
    (tick r src rotation s).er.isActive = true := by
  obtain ⟨he, hb, ha⟩ := emit_ready_start r src s h1 (by omega) h3
  rw [h2] at he
  refine ⟨he, hb, ha, ?_, ?_⟩
  · rw [tick_active, ha]
  · rw [tick_er, he]

theorem transition_tick_no_spawn_witness :
    (initSim.er.isActive = false ∧ initSim.er.cooldown = 0 ∧
      zStream 0 < ERUPTION_CHANCE) ∧
    ((emitPhase zStream ⟨12, 0, 0⟩ initSim).1 = ⟨true, ERUPTION_DURATION, 0⟩ ∧
     (emitPhase zStream ⟨12, 0, 0⟩ initSim).2.1 = initSim.bufs ∧
     (emitPhase zStream ⟨12, 0, 0⟩ initSim).2.2.1 = initSim.active ∧
     (tick zStream ⟨12, 0, 0⟩ 0 initSim).active = initSim.active ∧
     (tick zStream ⟨12, 0, 0⟩ 0 initSim).er.isActive = true) :=
  ⟨⟨rfl, rfl, by norm_num [zStream, ERUPTION_CHANCE]⟩,
   transition_tick_no_spawn zStream ⟨12, 0, 0⟩ 0 initSim rfl rfl
     (by norm_num [zStream, ERUPTION_CHANCE])⟩

/-- With the all-zero stream every attempt succeeds; below saturation the
live counter gains one per attempt (all indexed by the stale snapshot). -/
theorem eruptLoop_count_z (src : V3) (stale : ℕ) (hs : stale < MAX_PARTICLES) :
    ∀ (n : ℕ) (b : Bufs) (cnt k : ℕ),
      (eruptLoop zStream src stale n (b, cnt, k)).2.1 = cnt + n := by
  intro n
  induction n with
  | zero => intro b cnt k; rfl
  | succ m ih =>
      intro b cnt k
      simp only [eruptLoop]
      rw [if_pos (by norm_num [zStream]), if_pos hs]
      rw [ih]
      omega

theorem spawnAt_pos (src : V3) (d0 d1 d2 d3 spread sb sv : ℝ) (col : V3)
    (idx : ℕ) (b : Bufs) :
    (spawnAt src d0 d1 d2 d3 spread sb sv col idx b).pos =
      writeSlot b.pos idx (finV (jitterPos src spread d0 d1 d2)) := rfl

/-- Buffer effect of the all-success spawn loop with stale snapshot 0: every
spawn writes slot 0; other slots keep their pre-loop contents. -/
theorem eruptLoop_bufs_z (src : V3) :
    ∀ (n : ℕ) (b : Bufs) (cnt k : ℕ),
      (eruptLoop zStream src 0 n (b, cnt, k)).1.pos 1 = b.pos 1 ∧
      (eruptLoop zStream src 0 n (b, cnt, k)).1.pos 0 =
        (if n = 0 then b.pos 0 else finV (jitterPos src 1.2 0 0 0)) := by
  intro n
  induction n with
  | zero => intro b cnt k; exact ⟨rfl, by rw [if_pos rfl]; rfl⟩
  | succ m ih =>
      intro b cnt k
      simp only [eruptLoop]
      rw [if_pos (by norm_num [zStream]), if_pos (by norm_num [MAX_PARTICLES])]
      obtain ⟨h1, h0⟩ := ih
        (spawnAt src (zStream (k+1)) (zStream (k+2)) (zStream (k+3)) (zStream (k+4))
          1.2 0.04 0.02 eruptColor 0 b) (cnt + 1) (k + 5)
      constructor
      · rw [h1, spawnAt_pos]
        exact writeSlot_ne _ _ _ _ (by norm_num)
      · rw [h0, if_neg (Nat.succ_ne_zero m)]
        split
        · rw [spawnAt_pos, writeSlot_eq _ _ _ (by norm_num [MAX_PARTICLES])]
          rfl
        · rfl

/-- C2 (code bug): one erupting tick from `activeCount = 0` with all five
spawn rolls succeeding.  The source destructures `activeParticles` into a
tick-start constant (line 319) but increments the live ref counter (line
340), so every one of the five spawns compares and writes the SAME slot 0
while the counter climbs to 5: slot 1 (which the claim says the second spawn
must occupy, since activeCount = 1 < capacity at that moment) is never
written, and slot 0 holds the fifth spawn's particle. -/
theorem spawns_share_tick_start_slot :
    (emitPhase zStream ⟨12, 0, 0⟩ ⟨initSim.bufs, 0, ⟨true, 5, 0⟩⟩).2.2.1 = 5 ∧
    (emitPhase zStream ⟨12, 0, 0⟩ ⟨initSim.bufs, 0, ⟨true, 5, 0⟩⟩).2.1.pos 1 = zeroP ∧
    (emitPhase zStream ⟨12, 0, 0⟩ ⟨initSim.bufs, 0, ⟨true, 5, 0⟩⟩).2.1.pos 0 =
      finV ⟨11.4, -0.6, -0.6⟩ := by
  refine ⟨?_, ?_, ?_⟩
  · show (eruptLoop zStream ⟨12, 0, 0⟩ 0 PARTICLES_PER_FRAME_DURING_ERUPTION
      (initSim.bufs, 0, 0)).2.1 = 5
    rw [eruptLoop_count_z ⟨12, 0, 0⟩ 0 (by norm_num [MAX_PARTICLES])]
    norm_num [PARTICLES_PER_FRAME_DURING_ERUPTION]
  · show (eruptLoop zStream ⟨12, 0, 0⟩ 0 PARTICLES_PER_FRAME_DURING_ERUPTION
      (initSim.bufs, 0, 0)).1.pos 1 = zeroP
    rw [(eruptLoop_bufs_z ⟨12, 0, 0⟩ PARTICLES_PER_FRAME_DURING_ERUPTION
      initSim.bufs 0 0).1]
    rfl
  · show (eruptLoop zStream ⟨12, 0, 0⟩ 0 PARTICLES_PER_FRAME_DURING_ERUPTION
      (initSim.bufs, 0, 0)).1.pos 0 = finV ⟨11.4, -0.6, -0.6⟩
    rw [(eruptLoop_bufs_z ⟨12, 0, 0⟩ PARTICLES_PER_FRAME_DURING_ERUPTION
      initSim.bufs 0 0).2]
    rw [if_neg (by norm_num [PARTICLES_PER_FRAME_DURING_ERUPTION])]
    simp only [finV, jitterPos]
    norm_num

/-- C3: if the controller enters Erupting with `countdown = ERUPTION_DURATION`
then (a) it stays erupting for the next 99 ticks, (b) exactly
`ERUPTION_DURATION` ticks later it is back in Quiescent with
`cooldownRemaining = ERUPTION_COOLDOWN`, (c) for exactly the next
`ERUPTION_COOLDOWN` ticks no transition into Erupting is possible regardless
of the draws, and (d) on the tick after the cooldown reaches zero any
sufficiently small eruption roll starts a new eruption. -/
theorem eruption_timing (s : Sim) (rs : ℕ → ℕ → ℝ) (srcs : ℕ → V3) (rots : ℕ → ℝ)
    (h1 : s.er.isActive = true) (h2 : s.er.countdown = ERUPTION_DURATION) :
    (∀ k : ℕ, k < 100 → (runTicks rs srcs rots k s).er.isActive = true) ∧
    (runTicks rs srcs rots 100 s).er = ⟨false, 0, ERUPTION_COOLDOWN⟩ ∧
    (∀ k : ℕ, 1 ≤ k → k ≤ 200 → (runTicks rs srcs rots (100 + k) s).er.isActive = false) ∧
    (∀ (r1 : ℕ → ℝ) (src1 : V3) (rot1 : ℝ), r1 0 < ERUPTION_CHANCE →
      (tick r1 src1 rot1 (runTicks rs srcs rots 300 s)).er.isActive = true) := by
  have hser : s.er = ⟨true, ERUPTION_DURATION, s.er.cooldown⟩ := by
    rcases s with ⟨bufs, act, er⟩
    rcases er with ⟨a, cd, co⟩
    dsimp at h1 h2 ⊢
    rw [h1, h2]
  have inv1 : ∀ k : ℕ, k ≤ 99 → (runTicks rs srcs rots k s).er =
      ⟨true, ERUPTION_DURATION - (k : ℤ), s.er.cooldown⟩ := by
    intro k
    induction k with
    | zero => intro _; simpa using hser
    | succ m ih =>
        intro hm
        have hprev := ih (by omega)
        simp only [runTicks]
        rw [tick_er, emit_erupt_cont _ _ _ (by rw [hprev]) (by
          rw [hprev]
          show (1 : ℤ) < ERUPTION_DURATION - (m : ℤ)
          unfold ERUPTION_DURATION
          omega)]
        rw [hprev]
        show Erupt.mk true (ERUPTION_DURATION - ((m : ℕ) : ℤ) - 1) s.er.cooldown =
          Erupt.mk true (ERUPTION_DURATION - ((m + 1 : ℕ) : ℤ)) s.er.cooldown
        refine congrArg (fun c => Erupt.mk true c s.er.cooldown) ?_
        push_cast
        ring
  have h100 : (runTicks rs srcs rots 100 s).er = ⟨false, 0, ERUPTION_COOLDOWN⟩ := by
    have hprev := inv1 99 (le_refl 99)
    show (tick (rs 99) (srcs 99) (rots 99) (runTicks rs srcs rots 99 s)).er = _
    rw [tick_er, emit_erupt_end _ _ _ (by rw [hprev]) (by
      rw [hprev]
      show ERUPTION_DURATION - (99 : ℤ) ≤ 1
      unfold ERUPTION_DURATION
      omega)]
    rw [hprev]
    show Erupt.mk false (ERUPTION_DURATION - ((99 : ℕ) : ℤ) - 1) ERUPTION_COOLDOWN =
      Erupt.mk false 0 ERUPTION_COOLDOWN
    refine congrArg (fun c => Erupt.mk false c ERUPTION_COOLDOWN) ?_
    unfold ERUPTION_DURATION
    norm_num
  have inv2 : ∀ k : ℕ, k ≤ 200 → (runTicks rs srcs rots (100 + k) s).er =
      ⟨false, 0, ERUPTION_COOLDOWN - (k : ℤ)⟩ := by
    intro k
    induction k with
    | zero => simpa using h100
    | succ m ih =>
        intro hm
        have hprev := ih (by omega)
        show (tick (rs (100 + m)) (srcs (100 + m)) (rots (100 + m))
          (runTicks rs srcs rots (100 + m) s)).er = _
        rw [tick_er, (emit_cooldown _ _ _ (by rw [hprev]) (by
          rw [hprev]
          show (0 : ℤ) < ERUPTION_COOLDOWN - (m : ℤ)
          unfold ERUPTION_COOLDOWN
          omega)).1]
        rw [hprev]
        show Erupt.mk false 0 (ERUPTION_COOLDOWN - ((m : ℕ) : ℤ) - 1) =
          Erupt.mk false 0 (ERUPTION_COOLDOWN - ((m + 1 : ℕ) : ℤ))
        refine congrArg (Erupt.mk false 0) ?_
        push_cast
        ring
  refine ⟨?_, h100, ?_, ?_⟩
  · intro k hk
    rw [inv1 k (by omega)]
  · intro k hk1 hk2
    rw [inv2 k hk2]
  · intro r1 src1 rot1 hroll
    have h300 := inv2 200 (le_refl 200)
    rw [tick_er, (emit_ready_start r1 src1 _ (by rw [h300]) (by
      rw [h300]
      show ¬ (0 : ℤ) < ERUPTION_COOLDOWN - (200 : ℤ)
      unfold ERUPTION_COOLDOWN
      omega) hroll).1]

theorem eruption_timing_witness :
    ((Sim.mk initSim.bufs 0 ⟨true, ERUPTION_DURATION, 0⟩).er.isActive = true ∧
     (Sim.mk initSim.bufs 0 ⟨true, ERUPTION_DURATION, 0⟩).er.countdown = ERUPTION_DURATION) ∧
    ((∀ k : ℕ, k < 100 →
        (runTicks (fun _ => zStream) constSrc constRot k
          (Sim.mk initSim.bufs 0 ⟨true, ERUPTION_DURATION, 0⟩)).er.isActive = true) ∧
     (runTicks (fun _ => zStream) constSrc constRot 100
        (Sim.mk initSim.bufs 0 ⟨true, ERUPTION_DURATION, 0⟩)).er =
          ⟨false, 0, ERUPTION_COOLDOWN⟩ ∧
     (∀ k : ℕ, 1 ≤ k → k ≤ 200 →
        (runTicks (fun _ => zStream) constSrc constRot (100 + k)
          (Sim.mk initSim.bufs 0 ⟨true, ERUPTION_DURATION, 0⟩)).er.isActive = false) ∧
     (∀ (r1 : ℕ → ℝ) (src1 : V3) (rot1 : ℝ), r1 0 < ERUPTION_CHANCE →
        (tick r1 src1 rot1 (runTicks (fun _ => zStream) constSrc constRot 300
          (Sim.mk initSim.bufs 0 ⟨true, ERUPTION_DURATION, 0⟩))).er.isActive = true)) :=
  ⟨⟨rfl, rfl⟩,
   eruption_timing (Sim.mk initSim.bufs 0 ⟨true, ERUPTION_DURATION, 0⟩)
     (fun _ => zStream) constSrc constRot rfl rfl⟩

/-- C1 (code bug): starting from the initial pool, 999 background-emission
ticks (draws 0.5 then 0.05) grow `activeCount` to 999; one all-zero-draw tick
starts an eruption; the next erupting tick makes five spawn attempts, each of
which compares the STALE tick-start snapshot `999 < MAX_PARTICLES` (src line
319 destructures `activeParticles` into a const) while incrementing the live
counter (src line 340), so `activeCount` ends at 1004 — strictly above
`MAX_PARTICLES`.  The monotone-growth half of the claim holds, but the
capacity bound is violated by the code. -/
theorem activeCount_exceeds_capacity :
    (runTicks overflowStreams constSrc constRot 1001 initSim).active = 1004 ∧
    MAX_PARTICLES < 1004 := by
  have hbg : ∀ n : ℕ, n ≤ 999 →
      (runTicks overflowStreams constSrc constRot n initSim).active = n ∧
      (runTicks overflowStreams constSrc constRot n initSim).er = ⟨false, 0, 0⟩ := by
    intro n
    induction n with
    | zero => intro _; exact ⟨rfl, rfl⟩
    | succ m ih =>
        intro hm
        obtain ⟨ha, he⟩ := ih (by omega)
        have hstream : overflowStreams m = bgStream := by
          unfold overflowStreams; rw [if_pos (by omega)]
        simp only [runTicks]
        rw [hstream]
        have h1 : (runTicks overflowStreams constSrc constRot m initSim).er.isActive
            = false := by rw [he]
        have h2 : ¬ (0 : ℤ) <
            (runTicks overflowStreams constSrc constRot m initSim).er.cooldown := by
          rw [he]; exact (by norm_num : ¬ (0 : ℤ) < 0)
        have h3 : ¬ bgStream 0 < ERUPTION_CHANCE := by
          norm_num [bgStream, ERUPTION_CHANCE]
        have h4 : bgStream 1 < BASE_EMISSION_RATE := by
          norm_num [bgStream, BASE_EMISSION_RATE]
        have h5 : (runTicks overflowStreams constSrc constRot m initSim).active
            < MAX_PARTICLES := by
          rw [ha]; show m < 1000; omega
        obtain ⟨her, hact⟩ := emit_bg_spawn bgStream (constSrc m) _ h1 h2 h3 h4 h5
        constructor
        · rw [tick_active, hact, ha]
        · rw [tick_er, her, he]
  obtain ⟨ha999, he999⟩ := hbg 999 (le_refl 999)
  have hs999 : overflowStreams 999 = zStream := by
    unfold overflowStreams; rw [if_neg (by omega)]
  have hroll : zStream 0 < ERUPTION_CHANCE := by norm_num [zStream, ERUPTION_CHANCE]
  obtain ⟨h1000er', _, h1000act'⟩ := emit_ready_start zStream (constSrc 999)
    (runTicks overflowStreams constSrc constRot 999 initSim)
    (by rw [he999]) (by rw [he999]; exact (by norm_num : ¬ (0 : ℤ) < 0)) hroll
  have h1000er : (runTicks overflowStreams constSrc constRot 1000 initSim).er =
      ⟨true, ERUPTION_DURATION, 0⟩ := by
    show (tick (overflowStreams 999) (constSrc 999) (constRot 999)
      (runTicks overflowStreams constSrc constRot 999 initSim)).er = _
    rw [hs999, tick_er, h1000er', he999]
  have h1000act : (runTicks overflowStreams constSrc constRot 1000 initSim).active
      = 999 := by
    show (tick (overflowStreams 999) (constSrc 999) (constRot 999)
      (runTicks overflowStreams constSrc constRot 999 initSim)).active = _
    rw [hs999, tick_active, h1000act', ha999]
  constructor
  · show (tick (overflowStreams 1000) (constSrc 1000) (constRot 1000)
      (runTicks overflowStreams constSrc constRot 1000 initSim)).active = 1004
    have hs1000 : overflowStreams 1000 = zStream := by
      unfold overflowStreams; rw [if_neg (by omega)]
    rw [hs1000, tick_active,
        emit_erupt_active zStream (constSrc 1000) _ (by rw [h1000er]),
        h1000act,
        eruptLoop_count_z (constSrc 1000) 999 (by show (999:ℕ) < 1000; omega)]
    norm_num [PARTICLES_PER_FRAME_DURING_ERUPTION]
  · show (1000 : ℕ) < 1004; omega

/-! ## Colour-range invariant (claim C9) -/

theorem inUnit3_writeSlot_at {f : ℕ → P3} (hf : ∀ i, i < MAX_PARTICLES → inUnit3 (f i))
    {v : P3} (ix : ℕ) (hv : inUnit3 v ∨ v = readSlot f ix) :
    ∀ i, i < MAX_PARTICLES → inUnit3 (writeSlot f ix v i) := by
  intro i hi
  unfold writeSlot
  split
  · by_cases hii : i = ix
    · subst hii
      rw [Function.update_same]
      rcases hv with hv | hv
      · exact hv
      · rw [hv, readSlot_lt f i hi]
        exact hf i hi
    · rw [Function.update_noteq hii]
      exact hf i hi
  · exact hf i hi

theorem inUnit3_eruptColor : inUnit3 (finV eruptColor) :=
  ⟨⟨1, rfl, by norm_num⟩, ⟨0.7, rfl, by norm_num⟩, ⟨0.3, rfl, by norm_num⟩⟩

theorem inUnit3_bgColor : inUnit3 (finV bgColor) :=
  ⟨⟨1, rfl, by norm_num⟩, ⟨0.5, rfl, by norm_num⟩, ⟨0.2, rfl, by norm_num⟩⟩

theorem colInv_spawnAt {b : Bufs} (hb : ∀ i, i < MAX_PARTICLES → inUnit3 (b.col i))
    (src : V3) (d0 d1 d2 d3 spread sb sv : ℝ) {col : V3} (hcol : inUnit3 (finV col))
    (idx : ℕ) :
    ∀ i, i < MAX_PARTICLES →
      inUnit3 ((spawnAt src d0 d1 d2 d3 spread sb sv col idx b).col i) := by
  intro i hi
  show inUnit3 (writeSlot b.col idx (finV col) i)
  exact inUnit3_writeSlot_at hb idx (Or.inl hcol) i hi

theorem colInv_eruptLoop (r : ℕ → ℝ) (src : V3) (stale : ℕ) :
    ∀ (n : ℕ) (b : Bufs) (cnt k : ℕ), (∀ i, i < MAX_PARTICLES → inUnit3 (b.col i)) →
      ∀ i, i < MAX_PARTICLES → inUnit3 ((eruptLoop r src stale n (b, cnt, k)).1.col i) := by
  intro n
  induction n with
  | zero => intro b cnt k hb; exact hb
  | succ m ih =>
      intro b cnt k hb
      simp only [eruptLoop]
      split
      · split
        · exact ih _ _ _ (colInv_spawnAt hb _ _ _ _ _ _ _ _ inUnit3_eruptColor _)
        · exact ih _ _ _ (colInv_spawnAt hb _ _ _ _ _ _ _ _ inUnit3_eruptColor _)
      · exact ih _ _ _ hb

theorem colInv_emitPhase (r : ℕ → ℝ) (src : V3) (s : Sim)
    (hb : ∀ i, i < MAX_PARTICLES → inUnit3 (s.bufs.col i)) :
    ∀ i, i < MAX_PARTICLES → inUnit3 ((emitPhase r src s).2.1.col i) := by
  unfold emitPhase
  split
  · exact colInv_eruptLoop r src s.active PARTICLES_PER_FRAME_DURING_ERUPTION
      s.bufs s.active 0 hb
  · split
    · exact hb
    · split
      · exact hb
      · split
        · split
          · exact colInv_spawnAt hb _ _ _ _ _ _ _ _ inUnit3_bgColor _
          · exact colInv_spawnAt hb _ _ _ _ _ _ _ _ inUnit3_bgColor _
        · exact hb

theorem colInv_integAux (r : ℕ → ℝ) (src : V3) (rotation : ℝ) :
    ∀ (fuel i0 : ℕ) (b : Bufs) (k : ℕ), (∀ i, i < MAX_PARTICLES → inUnit3 (b.col i)) →
      ∀ i, i < MAX_PARTICLES →
        inUnit3 ((integAux r src rotation i0 fuel (b, k)).1.col i) := by
  intro fuel
  induction fuel with
  | zero => intro i0 b k hb; exact hb
  | succ m ih =>
      intro i0 b k hb
      simp only [integAux]
      apply ih
      intro i hi
      show inUnit3 (writeSlot b.col i0
        (stepSlot r k src rotation (readSlot b.pos i0) (readSlot b.vel i0)
          (readSlot b.col i0)).col i)
      refine inUnit3_writeSlot_at hb i0 ?_ i hi
      rcases (stepSlot_spec r k src rotation (readSlot b.pos i0) (readSlot b.vel i0)
        (readSlot b.col i0)).2.2 with hc | hc
      · exact Or.inr hc
      · exact Or.inl hc

theorem colInv_tick (r : ℕ → ℝ) (src : V3) (rotation : ℝ) (s : Sim)
    (hb : ∀ i, i < MAX_PARTICLES → inUnit3 (s.bufs.col i)) :
    ∀ i, i < MAX_PARTICLES → inUnit3 ((tick r src rotation s).bufs.col i) := by
  intro i hi
  show inUnit3 ((integAux r src rotation 0 (Nat.max MAX_PARTICLES s.active)
    ((emitPhase r src s).2.1, (emitPhase r src s).2.2.2)).1.col i)
  exact colInv_integAux r src rotation _ 0 _ _ (colInv_emitPhase r src s hb) i hi

/-- C9: after every tick of every run from the initial pool, each of the
three colour channels of every slot is a finite value in `[0, 1]` — whether
the slot was freshly emitted (constant colours), reset by a guard (colour
untouched), colour-updated by the integrator (ionization-clamped channels),
or left alone. -/
theorem colors_in_unit_range (rs : ℕ → ℕ → ℝ) (srcs : ℕ → V3) (rots : ℕ → ℝ)
    (n : ℕ) (i : ℕ) (h : i < MAX_PARTICLES) :
    inUnit3 ((runTicks rs srcs rots n initSim).bufs.col i) := by
  have main : ∀ m : ℕ, ∀ j, j < MAX_PARTICLES →
      inUnit3 ((runTicks rs srcs rots m initSim).bufs.col j) := by
    intro m
    induction m with
    | zero =>
        intro j hj
        exact ⟨⟨1, rfl, by norm_num⟩, ⟨0.5, rfl, by norm_num⟩, ⟨0.2, rfl, by norm_num⟩⟩
    | succ t ih =>
        intro j hj
        simp only [runTicks]
        exact colInv_tick _ _ _ _ ih j hj
  exact main n i h

theorem colors_in_unit_range_witness :
    0 < MAX_PARTICLES ∧
    inUnit3 ((runTicks overflowStreams constSrc constRot 3 initSim).bufs.col 0) :=
  ⟨by norm_num [MAX_PARTICLES],
   colors_in_unit_range overflowStreams constSrc constRot 3 0
     (by norm_num [MAX_PARTICLES])⟩
